import Mathlib

/-!
Shallow embedding of the control flow and string processing of
src/irc-client/examples/irc_daemon.py (class IRCDaemon).

Strings are modelled as List Char.  Timestamps written by the Python code
into the outbox/inbox sinks are environmental and are omitted: an outbox
entry is the raw message, an inbox entry is a structured record.  Wall-clock
time is abstracted: the registration-wait deadline becomes exhaustion of the
finite list of receive events supplied by the environment, and the 120s
keepalive test becomes an environment-supplied boolean.
-/

namespace IrcD

/-- Characters removed by Python str.strip() (ASCII whitespace subset). -/
def isPySpace (c : Char) : Bool :=
  (c == ' ') || (c == '\t') || (c == '\n') || (c == '\r') || (c == '\x0b') || (c == '\x0c')

/-- Python line.strip(): drop leading and trailing whitespace. -/
def pyStrip (l : List Char) : List Char :=
  ((l.dropWhile isPySpace).reverse.dropWhile isPySpace).reverse

/-- Python s.startswith(p) on character lists. -/
def startsWith : List Char → List Char → Bool
  | [], _ => true
  | _ :: _, [] => false
  | p :: ps, c :: cs => p == c && startsWith ps cs

/-- Python substring containment (pat in l). -/
def containsSub (pat : List Char) : List Char → Bool
  | [] => pat.isEmpty
  | c :: rest => startsWith pat (c :: rest) || containsSub pat rest

/-- Split a list at the first space: returns (chars before it, remainder
starting at the space, if any). -/
def breakSp : List Char → List Char × List Char
  | [] => ([], [])
  | c :: rest =>
      if c = ' ' then ([], c :: rest)
      else
        let p := breakSp rest
        (c :: p.1, p.2)

/-- Python s.split(' ', k): at most k splits at single spaces, empty fields kept. -/
def splitAtMost : Nat → List Char → List (List Char)
  | 0, l => [l]
  | k + 1, l =>
      let p := breakSp l
      match p.2 with
      | [] => [l]
      | _ :: rest => p.1 :: splitAtMost k rest

/-- Python s.split(' ') with no bound: there can be at most length-many
splits, so a maxsplit of the length is equivalent to no bound. -/
def splitAllSp (l : List Char) : List (List Char) := splitAtMost l.length l

/-- Worker for splitLines: accumulates the current line reversed. -/
def splitLinesGo : List Char → List Char → List (List Char)
  | [], acc => [acc.reverse]
  | c :: rest, acc =>
      if c = '\n' then
        acc.reverse :: (match rest with | [] => [] | _ :: _ => splitLinesGo rest [])
      else splitLinesGo rest (c :: acc)

/-- Python f.readlines() followed by per-line strip of the terminator is
equivalent to splitting on newline and dropping a final empty piece when the
content ends in a newline; empty content yields no lines. -/
def splitLines : List Char → List (List Char)
  | [] => []
  | c :: rest => splitLinesGo (c :: rest) []

/-- Python s.split('!')[0]: everything before the first bang. -/
def untilBang : List Char → List Char
  | [] => []
  | c :: rest => if c = '!' then [] else c :: untilBang rest

/-- Python field[1:] if field.startswith(':') else field. -/
def dropColon : List Char → List Char
  | c :: rest => if c = ':' then rest else c :: rest
  | [] => []

/-- Python line.replace('PING', 'PONG'): left-to-right non-overlapping
replacement of every occurrence. -/
def replacePingPong : List Char → List Char
  | c1 :: c2 :: c3 :: c4 :: r4 =>
      if c1 = 'P' ∧ c2 = 'I' ∧ c3 = 'N' ∧ c4 = 'G' then
        'P' :: 'O' :: 'N' :: 'G' :: replacePingPong r4
      else c1 :: replacePingPong (c2 :: c3 :: c4 :: r4)
  | l => l

/-- Worker for the framing loop: while CRLF is in the buffer, split at the
first CRLF, collecting complete lines; the accumulator holds the reversed
character prefix of the line being scanned.  Mirrors the Python idiom
line, buffer = buffer.split('\r\n', 1) iterated to a fixed point. -/
def extractGo : List Char → List Char → List (List Char) × List Char
  | [], acc => ([], acc.reverse)
  | [c], acc => ([], (c :: acc).reverse)
  | c :: d :: rest2, acc =>
      if c = '\r' ∧ d = '\n' then
        let p := extractGo rest2 []
        (acc.reverse :: p.1, p.2)
      else extractGo (d :: rest2) (c :: acc)

/-- The line framer: all complete CRLF-terminated lines of the buffer, in
order, plus the trailing unterminated fragment. -/
def extractLines (buf : List Char) : List (List Char) × List Char := extractGo buf []

/-- One feed step for the framer state (lines so far, residual buffer). -/
def feedStep (acc : List (List Char) × List Char) (chunk : List Char) :
    List (List Char) × List Char :=
  let p := extractLines (acc.2 ++ chunk)
  (acc.1 ++ p.1, p.2)

/-- Feeding a list of chunks one by one from an empty buffer. -/
def feedMany (chunks : List (List Char)) : List (List Char) × List Char :=
  chunks.foldl feedStep ([], [])

/-! Protocol and command constants, as character lists. -/

def PINGl : List Char := "PING".toList
def PONGl : List Char := "PONG".toList
def PRIVMSGl : List Char := "PRIVMSG".toList
def JOINl : List Char := "JOIN".toList
def PARTl : List Char := "PART".toList
def W001 : List Char := " 001 ".toList
def SENDsp : List Char := "SEND ".toList
def JOINsp : List Char := "JOIN ".toList
def PARTsp : List Char := "PART ".toList
def PRIVMSGsp : List Char := "PRIVMSG ".toList
def QUITl : List Char := "QUIT".toList
def CRLF : List Char := ['\r', '\n']
def KEEPALIVEl : List Char := "PING :keepalive".toList
def QUITRAW : List Char := "QUIT :Daemon stopped\r\n".toList
def STARTINGs : List Char := "STARTING\n".toList
def STOPPEDs : List Char := "STOPPED\n".toList
def RECONNs : List Char := "RECONNECTING\n".toList
def ERRORP : List Char := "ERROR: ".toList
def HSCLOSEDs : List Char := "ERROR: Connection closed during handshake\n".toList
def NOWELCOMEs : List Char := "ERROR: No welcome within 30s\n".toList

/-- Typed classification of one inbound protocol line, read off the dispatch
structure of the steady-state loop in IRCDaemon.run (lines 176-216). -/
inductive Event where
  | ping (reply : List Char)
  | chatMessage (sender target text : List Char)
  | joined (user channel : List Char)
  | parted (user channel : List Char)
  | unrecognized (line : List Char)
deriving DecidableEq

/-- Classify one framed line exactly as IRCDaemon.run does: a PING prefix is
answered (reply = line with PING replaced by PONG) and short-circuits;
otherwise substring tests for PRIVMSG, then JOIN, then PART, with the
field extractions of the source; anything else is unrecognized. -/
def parseEvent (line : List Char) : Event :=
  if startsWith PINGl line then Event.ping (replacePingPong line)
  else if containsSub PRIVMSGl line then
    let parts := splitAtMost 3 line
    if 4 ≤ parts.length then
      Event.chatMessage (untilBang ((parts.getD 0 []).drop 1)) (parts.getD 2 [])
        (dropColon (parts.getD 3 []))
    else Event.unrecognized line
  else if containsSub JOINl line then
    let parts := splitAllSp line
    if 3 ≤ parts.length then
      Event.joined (untilBang ((parts.getD 0 []).drop 1)) (dropColon (parts.getD 2 []))
    else Event.unrecognized line
  else if containsSub PARTl line then
    let parts := splitAllSp line
    if 3 ≤ parts.length then
      Event.parted (untilBang ((parts.getD 0 []).drop 1)) (parts.getD 2 [])
    else Event.unrecognized line
  else Event.unrecognized line

/-- One record of the inbox sink (timestamp omitted). -/
inductive InboxRec where
  | chat (sender target text : List Char)
  | joinedR (user channel : List Char)
  | partedR (user channel : List Char)
deriving DecidableEq

/-- Command parsed from one line of the commands file, following
IRCDaemon.check_commands: a line starting with SEND-space but with fewer
than three space-split fields is silently skipped (sendMalformed), and the
unknown branch receives the stripped line. -/
inductive Cmd where
  | send (target text : List Char)
  | sendMalformed
  | joinC (channel : List Char)
  | partC (channel : List Char)
  | quit
  | unknown (text : List Char)
  | blank
deriving DecidableEq

/-- Parse one raw command-file line, as check_commands does. -/
def parseCmd (raw : List Char) : Cmd :=
  let line := pyStrip raw
  if line = [] then Cmd.blank
  else if startsWith SENDsp line then
    let parts := splitAtMost 2 line
    if 3 ≤ parts.length then Cmd.send (parts.getD 1 []) (parts.getD 2 [])
    else Cmd.sendMalformed
  else if startsWith JOINsp line then Cmd.joinC ((splitAtMost 1 line).getD 1 [])
  else if startsWith PARTsp line then Cmd.partC ((splitAtMost 1 line).getD 1 [])
  else if line = QUITl then Cmd.quit
  else Cmd.unknown line

/-! The daemon state and the environment of one loop iteration. -/

/-- Observable daemon state: the four control-file sinks, the bytes written
to the transport (wire), the framing buffer, and the loop control flags.
broke records that the loop body executed the break statement; finished
records that the post-loop cleanup ran. -/
structure DState where
  nick : List Char
  chan : List Char
  serverLabel : List Char
  running : Bool
  broke : Bool
  finished : Bool
  closed : Bool
  status : List Char
  commands : List Char
  buffer : List Char
  outbox : List (List Char)
  wire : List (List Char)
  inbox : List InboxRec
  unknownLog : List (List Char)
deriving DecidableEq

/-- IRCDaemon.send_raw with the outcome of the socket write made explicit:
on success the terminated line goes to the wire and the message is logged to
the outbox; on failure the exception is swallowed and nothing changes. -/
def sendRawR (ok : Bool) (msg : List Char) (st : DState) : DState :=
  if ok then
    { st with wire := st.wire ++ [msg ++ CRLF], outbox := st.outbox ++ [msg] }
  else st

/-- send_raw on a healthy transport. -/
def sendRaw : List Char → DState → DState := sendRawR true

/-- Execute one parsed command against the state, as the body of the
check_commands for-loop does. -/
def execCmd (c : Cmd) (st : DState) : DState :=
  match c with
  | Cmd.send t x => sendRaw (PRIVMSGsp ++ (t ++ ' ' :: ':' :: x)) st
  | Cmd.sendMalformed => st
  | Cmd.joinC ch => sendRaw (JOINsp ++ ch) st
  | Cmd.partC ch => sendRaw (PARTsp ++ ch) st
  | Cmd.quit => { st with running := false }
  | Cmd.unknown l => { st with unknownLog := st.unknownLog ++ [l] }
  | Cmd.blank => st

/-- Process one raw command-file line. -/
def procCmdLine (l : List Char) (st : DState) : DState := execCmd (parseCmd l) st

/-- Process a drained batch of command-file lines in order. -/
def runCmdLines (ls : List (List Char)) (st : DState) : DState :=
  ls.foldl (fun s l => procCmdLine l s) st

/-- IRCDaemon.check_commands: if the commands file is non-empty, read its
lines, execute each, then clear the file; otherwise do nothing. -/
def checkCommands (st : DState) : DState :=
  if st.commands = [] then st
  else { runCmdLines (splitLines st.commands) st with commands := [] }

/-- The sequence of Commands a call of check_commands reads from the given
state (the drain of the spec): empty when the file is empty. -/
def drainedCmds (st : DState) : List Cmd :=
  if st.commands = [] then [] else (splitLines st.commands).map parseCmd

/-- React to one framed inbound line in the steady-state loop: answer PING,
log chat/join/part to the inbox, ignore the rest. -/
def procLine (line : List Char) (st : DState) : DState :=
  match parseEvent line with
  | Event.ping reply => sendRaw reply st
  | Event.chatMessage s t x => { st with inbox := st.inbox ++ [InboxRec.chat s t x] }
  | Event.joined u c => { st with inbox := st.inbox ++ [InboxRec.joinedR u c] }
  | Event.parted u c => { st with inbox := st.inbox ++ [InboxRec.partedR u c] }
  | Event.unrecognized _ => st

/-! The registration wait (IRCDaemon._wait_for_welcome). -/

/-- One receive outcome during the registration wait: a data chunk (empty
means the remote closed the connection) or a read timeout. -/
inductive HsEvent where
  | data (chunk : List Char)
  | timeout
deriving DecidableEq

/-- Result of the registration wait. -/
inductive HsResult where
  | welcome
  | closed
  | timedOut
deriving DecidableEq

/-- Outcome of the registration wait together with the PONG raw sends it
performed, in order. -/
structure WaitOut where
  result : HsResult
  sends : List (List Char)
deriving DecidableEq

/-- The inner line loop of _wait_for_welcome over one buffer: split at each
CRLF; a line with a PING prefix is answered; independently (a second if, not
an elif in the source) a line containing the token 001 returns success at
once, discarding the rest of the buffer.  Returns (welcome reached, residual
buffer, pong sends). -/
def scanGo : List Char → List Char → Bool × List Char × List (List Char)
  | [], acc => (false, acc.reverse, [])
  | [c], acc => (false, (c :: acc).reverse, [])
  | c :: d :: rest2, acc =>
      if c = '\r' ∧ d = '\n' then
        let line := acc.reverse
        let pongs := if startsWith PINGl line then [replacePingPong line] else []
        if containsSub W001 line then (true, rest2, pongs)
        else
          let r := scanGo rest2 []
          (r.1, r.2.1, pongs ++ r.2.2)
      else scanGo (d :: rest2) (c :: acc)

/-- Line scan of a buffer from an empty accumulator. -/
def scanLines (buf : List Char) : Bool × List Char × List (List Char) := scanGo buf []

/-- IRCDaemon._wait_for_welcome: consume receive events, feeding data through
the line scan, until a 001 line (welcome), an empty read (closed), or the
event budget is exhausted (the 30s deadline, timedOut). -/
def waitWelcome : List HsEvent → List Char → WaitOut
  | [], _ => ⟨HsResult.timedOut, []⟩
  | HsEvent.timeout :: es, buf => waitWelcome es buf
  | HsEvent.data [] :: _, _ => ⟨HsResult.closed, []⟩
  | HsEvent.data (c :: cs) :: es, buf =>
      let r := scanGo (buf ++ c :: cs) []
      if r.1 then ⟨HsResult.welcome, r.2.2⟩
      else
        let w := waitWelcome es r.2.1
        ⟨w.result, r.2.2 ++ w.sends⟩

/-! The connect attempt and the main loop (IRCDaemon.connect / run). -/

/-- Environment of one connect attempt: either the TCP connect raises (with
the exception text), or it succeeds and the registration wait is driven by
the given receive events. -/
inductive ConnOutcome where
  | sockFail (emsg : List Char)
  | hs (events : List HsEvent)
deriving DecidableEq

/-- Whether a connect attempt with this environment returns True. -/
def connOk (o : ConnOutcome) : Bool :=
  match o with
  | ConnOutcome.sockFail _ => false
  | ConnOutcome.hs evs => (waitWelcome evs []).result = HsResult.welcome

/-- Status line written on success: CONNECTED: server:port as nick in chan. -/
def connectedStatus (st : DState) : List Char :=
  "CONNECTED: ".toList ++ st.serverLabel ++ " as ".toList ++ st.nick ++
    " in ".toList ++ st.chan ++ ['\n']

/-- IRCDaemon.connect: on socket failure write an ERROR status and fail;
otherwise send NICK and USER, run the registration wait (whose PONG replies
are raw sends), and on welcome send JOIN and write the CONNECTED status. -/
def connectModel (o : ConnOutcome) (st : DState) : DState × Bool :=
  match o with
  | ConnOutcome.sockFail m => ({ st with status := ERRORP ++ m ++ ['\n'] }, false)
  | ConnOutcome.hs evs =>
      let st1 := sendRaw ("NICK ".toList ++ st.nick) st
      let st2 := sendRaw ("USER ".toList ++ st.nick ++ " 0 * :".toList ++ st.nick) st1
      let w := waitWelcome evs []
      let st3 := w.sends.foldl (fun s p => sendRaw p s) st2
      match w.result with
      | HsResult.closed => ({ st3 with status := HSCLOSEDs }, false)
      | HsResult.timedOut => ({ st3 with status := NOWELCOMEs }, false)
      | HsResult.welcome =>
          let st4 := sendRaw (JOINsp ++ st.chan) st3
          ({ st4 with status := connectedStatus st }, true)

/-- One receive outcome in the steady-state loop: recv returned a chunk
(empty meaning the remote closed), the 1s read timed out, or the read raised
(with the exception text). -/
inductive NetEvent where
  | recv (chunk : List Char)
  | timeout
  | err (emsg : List Char)
deriving DecidableEq

/-- Environment of one loop iteration: bytes an external writer appended to
the commands file since the last poll, the receive outcome, the connect
environment used if this iteration reconnects, and whether more than the
keepalive interval has passed when the read times out. -/
structure EnvIn where
  cmds : List Char
  net : NetEvent
  conn : ConnOutcome
  pingDue : Bool
deriving DecidableEq

/-- The reconnect sequence of a failed read: after the status write, one
connect attempt; on success the loop continues with the new session, on
failure the break flag is set. -/
def reconnectStep (o : ConnOutcome) (s : DState) : DState :=
  let c := connectModel o s
  if c.2 then c.1 else { c.1 with broke := true }

/-- One iteration of the while-running body of IRCDaemon.run: poll and drain
the commands file, then handle the receive outcome.  An empty read writes
RECONNECTING and reconnects; a read error writes ERROR and reconnects; in
both cases a failed reconnect sets broke (the break statement).  Data is
framed and each complete line processed; a timeout sends the keepalive PING
when due. -/
def iterStep (e : EnvIn) (st : DState) : DState :=
  let st1 := checkCommands { st with commands := st.commands ++ e.cmds }
  match e.net with
  | NetEvent.recv chunk =>
      if chunk = [] then reconnectStep e.conn { st1 with status := RECONNs }
      else
        let p := extractLines (st1.buffer ++ chunk)
        let st2 := { st1 with buffer := p.2 }
        p.1.foldl (fun s l => procLine l s) st2
  | NetEvent.timeout => if e.pingDue then sendRaw KEEPALIVEl st1 else st1
  | NetEvent.err m => reconnectStep e.conn { st1 with status := ERRORP ++ m ++ ['\n'] }

/-- The post-loop cleanup of IRCDaemon.run: write STOPPED, then send the
QUIT line directly on the socket (not through send_raw, so the outbox is
untouched), then close the transport. -/
def cleanup (st : DState) : DState :=
  let st1 := { st with status := STOPPEDs }
  let st2 := { st1 with wire := st1.wire ++ [QUITRAW] }
  { st2 with closed := true, finished := true }

/-- The while-running loop of IRCDaemon.run, driven by a finite list of
iteration environments: the flag is tested at the top of each iteration, a
break leaves the loop at once, and leaving the loop always runs cleanup.
An exhausted environment list means the run is observed only this far. -/
def runLoop : List EnvIn → DState → DState
  | [], st => if st.running then st else cleanup st
  | e :: es, st =>
      if st.running then
        let st' := iterStep e st
        if st'.broke then cleanup st' else runLoop es st'
      else cleanup st

/-- IRCDaemon.run: a failed first connect returns at once without cleanup
(the Failed terminal); otherwise the loop runs. -/
def daemonRun (o : ConnOutcome) (envs : List EnvIn) (st : DState) : DState :=
  let c := connectModel o st
  if c.2 then runLoop envs c.1 else c.1

/-- State as built by IRCDaemon.__init__: STARTING status, empty files,
loop flag set. -/
def initState (serverLabel nick chan : List Char) : DState :=
  { nick := nick, chan := chan, serverLabel := serverLabel,
    running := true, broke := false, finished := false, closed := false,
    status := STARTINGs, commands := [], buffer := [],
    outbox := [], wire := [], inbox := [], unknownLog := [] }

/-! Concrete fixtures used by witnesses and counterexamples. -/

/-- The adjacent-pair relation violated exactly by a CR immediately followed
by LF; a buffer chain-free for it contains no line terminator. -/
def pairOK (a b : Char) : Prop := ¬(a = '\r' ∧ b = '\n')

instance : DecidableRel pairOK :=
  fun a b => inferInstanceAs (Decidable ¬(a = '\r' ∧ b = '\n'))

/-- Executable check that a buffer contains no CRLF pair. -/
def crlfFree : List Char → Bool
  | c :: d :: rest => if c = '\r' ∧ d = '\n' then false else crlfFree (d :: rest)
  | _ => true

def stInit : DState := initState "irc.example.org:6667".toList "bot".toList "#c".toList

/-- A connect environment whose handshake delivers a 001 welcome line. -/
def hsOK : ConnOutcome := ConnOutcome.hs [HsEvent.data "x 001 y\r\n".toList]

/-- The steady state reached after a successful first connect. -/
def stRun : DState := (connectModel hsOK stInit).1

/-- An iteration in which the remote closes the connection and the reconnect
attempt fails at the TCP level; no external commands arrive. -/
def envEofFail : EnvIn :=
  ⟨[], NetEvent.recv [], ConnOutcome.sockFail "Connection refused".toList, false⟩

/-- An iteration in which the controller has appended a QUIT command and the
read simply times out. -/
def envQuit : EnvIn := ⟨"QUIT\n".toList, NetEvent.timeout, ConnOutcome.sockFail [], false⟩

end IrcD

namespace IrcD

/-! Helper lemmas on the string utilities. -/

theorem startsWith_self_append (p r : List Char) : startsWith p (p ++ r) = true := by
  induction p with
  | nil => rfl
  | cons c ps ih => simp [startsWith, ih]

theorem breakSp_no_space (t l : List Char) (ht : ∀ c ∈ t, c ≠ ' ') :
    breakSp (t ++ ' ' :: l) = (t, ' ' :: l) := by
  induction t with
  | nil => simp [breakSp]
  | cons c ts ih =>
      have hc : c ≠ ' ' := ht c (by simp)
      simp [breakSp, hc, ih (fun d hd => ht d (by simp [hd]))]

theorem breakSp_all (t : List Char) (ht : ∀ c ∈ t, c ≠ ' ') : breakSp t = (t, []) := by
  induction t with
  | nil => rfl
  | cons c ts ih =>
      have hc : c ≠ ' ' := ht c (by simp)
      simp [breakSp, hc, ih (fun d hd => ht d (by simp [hd]))]

theorem splitAtMost_send (t x : List Char) (ht : ∀ c ∈ t, c ≠ ' ') :
    splitAtMost 2 (SENDsp ++ (t ++ ' ' :: x)) = ["SEND".toList, t, x] := by
  show splitAtMost 2 ('S' :: 'E' :: 'N' :: 'D' :: ' ' :: (t ++ ' ' :: x)) = _
  simp [splitAtMost, breakSp, breakSp_no_space t x ht]

theorem splitAtMost_send_short (t : List Char) (ht : ∀ c ∈ t, c ≠ ' ') :
    splitAtMost 2 (SENDsp ++ t) = ["SEND".toList, t] := by
  show splitAtMost 2 ('S' :: 'E' :: 'N' :: 'D' :: ' ' :: t) = _
  simp [splitAtMost, breakSp, breakSp_all t ht]

theorem splitAtMost_one_join (ch : List Char) :
    splitAtMost 1 (JOINsp ++ ch) = ["JOIN".toList, ch] := by
  show splitAtMost 1 ('J' :: 'O' :: 'I' :: 'N' :: ' ' :: ch) = _
  simp [splitAtMost, breakSp]

theorem splitAtMost_one_part (ch : List Char) :
    splitAtMost 1 (PARTsp ++ ch) = ["PART".toList, ch] := by
  show splitAtMost 1 ('P' :: 'A' :: 'R' :: 'T' :: ' ' :: ch) = _
  simp [splitAtMost, breakSp]

/-! Evaluation of parseCmd on each grammatical shape. -/

theorem parseCmd_send (t x : List Char) (ht : ∀ c ∈ t, c ≠ ' ')
    (hx : pyStrip (SENDsp ++ (t ++ ' ' :: x)) = SENDsp ++ (t ++ ' ' :: x)) :
    parseCmd (SENDsp ++ (t ++ ' ' :: x)) = Cmd.send t x := by
  simp only [parseCmd, hx]
  rw [if_neg (by simp [SENDsp]), if_pos (startsWith_self_append SENDsp (t ++ ' ' :: x)),
    splitAtMost_send t x ht]
  simp

theorem parseCmd_send_short (t : List Char) (ht : ∀ c ∈ t, c ≠ ' ')
    (hx : pyStrip (SENDsp ++ t) = SENDsp ++ t) :
    parseCmd (SENDsp ++ t) = Cmd.sendMalformed := by
  simp only [parseCmd, hx]
  rw [if_neg (by simp [SENDsp]), if_pos (startsWith_self_append SENDsp t),
    splitAtMost_send_short t ht]
  simp

theorem parseCmd_join (ch : List Char)
    (hx : pyStrip (JOINsp ++ ch) = JOINsp ++ ch) :
    parseCmd (JOINsp ++ ch) = Cmd.joinC ch := by
  simp only [parseCmd, hx]
  rw [if_neg (by simp [JOINsp]), if_neg (by simp [startsWith, SENDsp, JOINsp]),
    if_pos (startsWith_self_append JOINsp ch), splitAtMost_one_join ch]
  simp

theorem parseCmd_part (ch : List Char)
    (hx : pyStrip (PARTsp ++ ch) = PARTsp ++ ch) :
    parseCmd (PARTsp ++ ch) = Cmd.partC ch := by
  simp only [parseCmd, hx]
  rw [if_neg (by simp [PARTsp]), if_neg (by simp [startsWith, SENDsp, PARTsp]),
    if_neg (by simp [startsWith, JOINsp, PARTsp]),
    if_pos (startsWith_self_append PARTsp ch), splitAtMost_one_part ch]
  simp

theorem parseCmd_quit (l : List Char) (h : pyStrip l = QUITl) :
    parseCmd l = Cmd.quit := by
  simp only [parseCmd, h]
  decide

theorem parseCmd_blank (l : List Char) (h : pyStrip l = []) :
    parseCmd l = Cmd.blank := by
  simp only [parseCmd, h]
  decide

theorem parseCmd_unknown (l : List Char) (h0 : pyStrip l ≠ [])
    (h1 : startsWith SENDsp (pyStrip l) = false)
    (h2 : startsWith JOINsp (pyStrip l) = false)
    (h3 : startsWith PARTsp (pyStrip l) = false)
    (h4 : pyStrip l ≠ QUITl) :
    parseCmd l = Cmd.unknown (pyStrip l) := by
  simp only [parseCmd, h0, h1, h2, h3, h4]
  simp [h0, h4]

/-! State-component invariants of command execution. -/

theorem execCmd_broke (c : Cmd) (st : DState) : (execCmd c st).broke = st.broke := by
  cases c <;> simp [execCmd, sendRaw, sendRawR]

theorem execCmd_running_false (c : Cmd) (st : DState) (h : st.running = false) :
    (execCmd c st).running = false := by
  cases c <;> simp [execCmd, sendRaw, sendRawR, h]

theorem execCmd_outbox (c : Cmd) (st : DState) :
    ∃ add, (execCmd c st).outbox = st.outbox ++ add := by
  cases c with
  | send t x => exact ⟨_, rfl⟩
  | sendMalformed => exact ⟨[], by simp [execCmd]⟩
  | joinC ch => exact ⟨_, rfl⟩
  | partC ch => exact ⟨_, rfl⟩
  | quit => exact ⟨[], by simp [execCmd]⟩
  | unknown l => exact ⟨[], by simp [execCmd]⟩
  | blank => exact ⟨[], by simp [execCmd]⟩

theorem runCmdLines_append (a b : List (List Char)) (st : DState) :
    runCmdLines (a ++ b) st = runCmdLines b (runCmdLines a st) := by
  simp [runCmdLines, List.foldl_append]

theorem runCmdLines_cons (l : List Char) (ls : List (List Char)) (st : DState) :
    runCmdLines (l :: ls) st = runCmdLines ls (procCmdLine l st) := rfl

theorem runCmdLines_broke (ls : List (List Char)) (st : DState) :
    (runCmdLines ls st).broke = st.broke := by
  induction ls generalizing st with
  | nil => rfl
  | cons l ls ih => rw [runCmdLines_cons, ih, procCmdLine, execCmd_broke]

theorem runCmdLines_running_false (ls : List (List Char)) (st : DState)
    (h : st.running = false) : (runCmdLines ls st).running = false := by
  induction ls generalizing st with
  | nil => exact h
  | cons l ls ih => rw [runCmdLines_cons]; exact ih _ (execCmd_running_false _ _ h)

theorem runCmdLines_outbox (ls : List (List Char)) (st : DState) :
    ∃ add, (runCmdLines ls st).outbox = st.outbox ++ add := by
  induction ls generalizing st with
  | nil => exact ⟨[], by simp [runCmdLines]⟩
  | cons l ls ih =>
      rw [runCmdLines_cons]
      obtain ⟨a1, h1⟩ := execCmd_outbox (parseCmd l) st
      obtain ⟨a2, h2⟩ := ih (procCmdLine l st)
      exact ⟨a1 ++ a2, by rw [h2, procCmdLine, h1, List.append_assoc]⟩

theorem runCmdLines_quit (ls : List (List Char)) (st : DState)
    (h : ∃ l ∈ ls, pyStrip l = QUITl) : (runCmdLines ls st).running = false := by
  induction ls generalizing st with
  | nil => exact absurd h (by simp)
  | cons l ls ih =>
      rw [runCmdLines_cons]
      rcases h with ⟨m, hm, hq⟩
      rcases List.mem_cons.mp hm with rfl | hmem
      · exact runCmdLines_running_false ls _
          (by rw [procCmdLine, parseCmd_quit m hq]; rfl)
      · exact ih _ ⟨m, hmem, hq⟩

/-- Claim C4, confirmed: a drain clears the queue source, so an immediately
repeated drain with no intervening external writes yields no Commands. -/
theorem c4_drain_exactly_once (st : DState) :
    drainedCmds (checkCommands st) = [] ∧ (checkCommands st).commands = [] := by
  by_cases h : st.commands = [] <;> simp [checkCommands, drainedCmds, h]

/-- Claim C7, counterexample: the line SEND followed by a bare target parses
to the silent sendMalformed branch, not to Unknown, and processing it logs
nothing and changes nothing. -/
theorem c7_cex_send_no_text :
    parseCmd "SEND #c".toList = Cmd.sendMalformed
  ∧ parseCmd "SEND #c".toList ≠ Cmd.unknown "SEND #c".toList
  ∧ procCmdLine "SEND #c".toList stRun = stRun
  ∧ stRun.unknownLog = [] := by decide

/-- Claim C7, amended: non-empty drained lines follow the stated grammar
with two deviations: a SEND line with fewer than three space-split fields is
silently skipped (no send, no Unknown log), and the Unknown branch records
the stripped line; Unknown and blank lines never touch the running flag, so
they are never fatal to the loop. -/
theorem c7_amended_grammar (st : DState) (t x ch l : List Char) :
    ((∀ c ∈ t, c ≠ ' ') → pyStrip (SENDsp ++ (t ++ ' ' :: x)) = SENDsp ++ (t ++ ' ' :: x) →
        procCmdLine (SENDsp ++ (t ++ ' ' :: x)) st = sendRaw (PRIVMSGsp ++ (t ++ ' ' :: ':' :: x)) st)
  ∧ ((∀ c ∈ t, c ≠ ' ') → pyStrip (SENDsp ++ t) = SENDsp ++ t →
        procCmdLine (SENDsp ++ t) st = st)
  ∧ (pyStrip (JOINsp ++ ch) = JOINsp ++ ch →
        procCmdLine (JOINsp ++ ch) st = sendRaw (JOINsp ++ ch) st)
  ∧ (pyStrip (PARTsp ++ ch) = PARTsp ++ ch →
        procCmdLine (PARTsp ++ ch) st = sendRaw (PARTsp ++ ch) st)
  ∧ (pyStrip l = QUITl → procCmdLine l st = { st with running := false })
  ∧ (pyStrip l = [] → procCmdLine l st = st)
  ∧ (pyStrip l ≠ [] → startsWith SENDsp (pyStrip l) = false →
        startsWith JOINsp (pyStrip l) = false → startsWith PARTsp (pyStrip l) = false →
        pyStrip l ≠ QUITl →
        procCmdLine l st = { st with unknownLog := st.unknownLog ++ [pyStrip l] }
          ∧ (procCmdLine l st).running = st.running) := by
  refine ⟨fun ht hx => ?_, fun ht hx => ?_, fun hx => ?_, fun hx => ?_,
    fun hq => ?_, fun hb => ?_, fun h0 h1 h2 h3 h4 => ?_⟩
  · rw [procCmdLine, parseCmd_send t x ht hx]; rfl
  · rw [procCmdLine, parseCmd_send_short t ht hx]; rfl
  · rw [procCmdLine, parseCmd_join ch hx]; rfl
  · rw [procCmdLine, parseCmd_part ch hx]; rfl
  · rw [procCmdLine, parseCmd_quit l hq]; rfl
  · rw [procCmdLine, parseCmd_blank l hb]; rfl
  · rw [procCmdLine, parseCmd_unknown l h0 h1 h2 h3 h4]; exact ⟨rfl, rfl⟩

/-- Witness for c7_amended_grammar at concrete inputs. -/
theorem c7_amended_grammar_witness :
    procCmdLine (SENDsp ++ ("#c".toList ++ ' ' :: "hi".toList)) stRun =
      sendRaw (PRIVMSGsp ++ ("#c".toList ++ ' ' :: ':' :: "hi".toList)) stRun
  ∧ procCmdLine "QUIT".toList stRun = { stRun with running := false }
  ∧ procCmdLine "bogus cmd".toList stRun =
      { stRun with unknownLog := stRun.unknownLog ++ [pyStrip "bogus cmd".toList] } := by
  refine ⟨?_, ?_, ?_⟩
  · exact (c7_amended_grammar stRun "#c".toList "hi".toList [] []).1
      (by decide) (by decide)
  · exact (c7_amended_grammar stRun [] [] [] "QUIT".toList).2.2.2.2.1 (by decide)
  · exact ((c7_amended_grammar stRun [] [] [] "bogus cmd".toList).2.2.2.2.2.2
      (by decide) (by decide) (by decide) (by decide) (by decide)).1

/-! Chain lemmas: a buffer satisfying Chain' pairOK contains no CRLF pair. -/

theorem chainTake1 (l : List Char) : List.Chain' pairOK (l.take 1) := by
  cases l <;> simp

theorem crlfFree_chain (l : List Char) (h : crlfFree l = true) :
    List.Chain' pairOK l := by
  induction l with
  | nil => simp
  | cons c rest ih =>
      cases rest with
      | nil => simp
      | cons d r =>
          rw [crlfFree] at h
          by_cases hcd : c = '\r' ∧ d = '\n'
          · rw [if_pos hcd] at h
            exact absurd h (by simp)
          · rw [if_neg hcd] at h
            exact List.chain'_cons.mpr ⟨hcd, ih h⟩

theorem pairOK_cr (x : Char) : pairOK x '\r' := fun h => absurd h.2 (by decide)

theorem chain_snoc_cr (l : List Char) (h : List.Chain' pairOK l) :
    List.Chain' pairOK (l ++ ['\r']) := by
  rw [List.chain'_append]
  refine ⟨h, by simp, ?_⟩
  intro x _ y hy
  simp at hy
  subst hy
  exact pairOK_cr x

theorem chain_extend (xs : List Char) (y : Char) (l : List Char)
    (h1 : List.Chain' pairOK (xs ++ [y])) (h2 : ∀ z ∈ l.head?, pairOK y z) :
    List.Chain' pairOK ((xs ++ [y]) ++ l.take 1) := by
  cases l with
  | nil => simpa using h1
  | cons z r =>
      rw [List.chain'_append]
      refine ⟨h1, by simp, ?_⟩
      intro a ha b hb
      simp at ha hb
      subst ha; subst hb
      exact h2 z (by simp)

/-! The framer: feeding a prefix free of terminators only shifts it into the
accumulator; consequences for residues and for feeding in stages. -/

theorem extractGo_push : ∀ (pre l acc : List Char),
    List.Chain' pairOK (pre ++ l.take 1) →
    extractGo (pre ++ l) acc = extractGo l (pre.reverse ++ acc)
  | [], l, acc, _ => by simp
  | c :: pre', l, acc, h => by
      cases hpl : pre' ++ l with
      | nil =>
          have hp : pre' = [] := by cases pre' with
            | nil => rfl
            | cons _ _ => simp at hpl
          have hl : l = [] := by subst hp; simpa using hpl
          subst hp; subst hl
          simp [extractGo]
      | cons d rest2 =>
          have hok : pairOK c d := by
            cases pre' with
            | nil =>
                have : l = d :: rest2 := by simpa using hpl
                subst this
                simp only [List.nil_append, List.take] at h
                exact (List.chain'_cons.mp h).1
            | cons p pre'' =>
                have : p = d := by simpa using congrArg List.head? hpl
                subst this
                exact (List.chain'_cons.mp h).1
          have htail : List.Chain' pairOK (pre' ++ l.take 1) := (List.chain'_cons'.mp h).2
          have hgoal1 : extractGo (c :: (pre' ++ l)) acc = extractGo (pre' ++ l) (c :: acc) := by
            rw [hpl]
            simp only [extractGo]
            rw [if_neg hok]
          calc extractGo ((c :: pre') ++ l) acc
              = extractGo (pre' ++ l) (c :: acc) := hgoal1
            _ = extractGo l (pre'.reverse ++ (c :: acc)) := extractGo_push pre' l (c :: acc) htail
            _ = extractGo l ((c :: pre').reverse ++ acc) := by
                simp [List.reverse_cons, List.append_assoc]

theorem extractGo_noCRLF (l acc : List Char) (h : List.Chain' pairOK l) :
    extractGo l acc = ([], acc.reverse ++ l) := by
  have hp := extractGo_push l [] acc (by simpa using h)
  simp only [List.append_nil] at hp
  rw [hp]
  simp [extractGo]

theorem extractGo_res : ∀ (l acc : List Char),
    List.Chain' pairOK (acc.reverse ++ l.take 1) →
    List.Chain' pairOK (extractGo l acc).2
  | [], acc, h => by simpa [extractGo] using h
  | [c], acc, h => by
      simp only [extractGo]
      simpa [List.reverse_cons] using h
  | c :: d :: rest2, acc, h => by
      by_cases hcd : c = '\r' ∧ d = '\n'
      · simp only [extractGo]
        rw [if_pos hcd]
        exact extractGo_res rest2 [] (by simpa using chainTake1 rest2)
      · simp only [extractGo]
        rw [if_neg hcd]
        refine extractGo_res (d :: rest2) (c :: acc) ?_
        have h1 : List.Chain' pairOK (acc.reverse ++ [c]) := by simpa using h
        have h2 := chain_extend acc.reverse c (d :: rest2) h1
          (by intro z hz; simp at hz; subst hz; exact hcd)
        simpa [List.reverse_cons, List.append_assoc] using h2

theorem extractGo_append : ∀ (a b acc : List Char),
    List.Chain' pairOK (acc.reverse ++ (a ++ b).take 1) →
    extractGo (a ++ b) acc =
      ((extractGo a acc).1 ++ (extractGo ((extractGo a acc).2 ++ b) []).1,
        (extractGo ((extractGo a acc).2 ++ b) []).2)
  | [], b, acc, h => by
      have hq := extractGo_push acc.reverse b [] (by simpa using h)
      simp only [extractGo, List.nil_append]
      rw [hq]
      simp
  | [c], b, acc, h => by
      have h1 : List.Chain' pairOK (acc.reverse ++ [c]) := by simpa using h
      have hq := extractGo_push acc.reverse (c :: b) [] (by simpa using h1)
      simp only [extractGo]
      rw [List.reverse_cons, List.append_assoc, List.singleton_append, hq]
      simp
  | c :: d :: rest2, b, acc, h => by
      by_cases hcd : c = '\r' ∧ d = '\n'
      · have ih := extractGo_append rest2 b [] (by simpa using chainTake1 (rest2 ++ b))
        show extractGo (c :: d :: (rest2 ++ b)) acc = _
        simp only [extractGo]
        rw [if_pos hcd, if_pos hcd, ih]
        simp
      · have h1 : List.Chain' pairOK (acc.reverse ++ [c]) := by simpa using h
        have hch : List.Chain' pairOK ((c :: acc).reverse ++ ((d :: rest2) ++ b).take 1) := by
          have h2 := chain_extend acc.reverse c ((d :: rest2) ++ b) h1
            (by intro z hz; simp at hz; subst hz; exact hcd)
          simpa [List.reverse_cons, List.append_assoc] using h2
        have ih := extractGo_append (d :: rest2) b (c :: acc) hch
        show extractGo (c :: ((d :: rest2) ++ b)) acc = _
        simp only [extractGo]
        rw [if_neg hcd, if_neg hcd]
        exact ih

theorem feed_fold : ∀ (cs : List (List Char)) (ls0 : List (List Char)) (r : List Char),
    List.Chain' pairOK r →
    cs.foldl feedStep (ls0, r) =
      (ls0 ++ (extractGo (r ++ cs.flatten) []).1, (extractGo (r ++ cs.flatten) []).2)
  | [], ls0, r, h => by
      have hr := extractGo_noCRLF r [] h
      simp [hr]
  | c :: cs', ls0, r, h => by
      have hstep : feedStep (ls0, r) c =
          (ls0 ++ (extractGo (r ++ c) []).1, (extractGo (r ++ c) []).2) := rfl
      have hres : List.Chain' pairOK (extractGo (r ++ c) []).2 :=
        extractGo_res (r ++ c) [] (by simpa using chainTake1 (r ++ c))
      have ih := feed_fold cs' (ls0 ++ (extractGo (r ++ c) []).1) (extractGo (r ++ c) []).2 hres
      have hcomp := extractGo_append (r ++ c) cs'.flatten []
        (by simpa using chainTake1 ((r ++ c) ++ cs'.flatten))
      calc (c :: cs').foldl feedStep (ls0, r)
          = cs'.foldl feedStep (feedStep (ls0, r) c) := rfl
        _ = (ls0 ++ (extractGo (r ++ c) []).1 ++
              (extractGo ((extractGo (r ++ c) []).2 ++ cs'.flatten) []).1,
             (extractGo ((extractGo (r ++ c) []).2 ++ cs'.flatten) []).2) := by rw [hstep, ih]
        _ = (ls0 ++ (extractGo (r ++ (c :: cs').flatten) []).1,
             (extractGo (r ++ (c :: cs').flatten) []).2) := by
            rw [List.flatten_cons]
            rw [show r ++ (c ++ cs'.flatten) = (r ++ c) ++ cs'.flatten by
              simp [List.append_assoc]]
            rw [hcomp]
            simp [List.append_assoc]

/-- Claim C9, confirmed: feeding a byte sequence to the framer in any
chunking yields the same complete lines and the same trailing fragment as
feeding it in one call, and the retained fragment never contains a
terminator (it is at most one unterminated line). -/
theorem c9_framing_stages (chunks : List (List Char)) :
    feedMany chunks = extractLines chunks.flatten
  ∧ List.Chain' pairOK (feedMany chunks).2 := by
  have h := feed_fold chunks [] [] (by simp)
  have heq : feedMany chunks = extractLines chunks.flatten := by
    simpa [feedMany, extractLines] using h
  refine ⟨heq, ?_⟩
  rw [heq]
  exact extractGo_res chunks.flatten [] (by simpa using chainTake1 chunks.flatten)

/-! The registration-wait scan. -/

theorem scanGo_push : ∀ (pre l acc : List Char),
    List.Chain' pairOK (pre ++ l.take 1) →
    scanGo (pre ++ l) acc = scanGo l (pre.reverse ++ acc)
  | [], l, acc, _ => by simp
  | c :: pre', l, acc, h => by
      cases hpl : pre' ++ l with
      | nil =>
          have hp : pre' = [] := by cases pre' with
            | nil => rfl
            | cons _ _ => simp at hpl
          have hl : l = [] := by subst hp; simpa using hpl
          subst hp; subst hl
          simp [scanGo]
      | cons d rest2 =>
          have hok : pairOK c d := by
            cases pre' with
            | nil =>
                have : l = d :: rest2 := by simpa using hpl
                subst this
                simp only [List.nil_append, List.take] at h
                exact (List.chain'_cons.mp h).1
            | cons p pre'' =>
                have : p = d := by simpa using congrArg List.head? hpl
                subst this
                exact (List.chain'_cons.mp h).1
          have htail : List.Chain' pairOK (pre' ++ l.take 1) := (List.chain'_cons'.mp h).2
          have hgoal1 : scanGo (c :: (pre' ++ l)) acc = scanGo (pre' ++ l) (c :: acc) := by
            rw [hpl]
            simp only [scanGo]
            rw [if_neg hok]
          calc scanGo ((c :: pre') ++ l) acc
              = scanGo (pre' ++ l) (c :: acc) := hgoal1
            _ = scanGo l (pre'.reverse ++ (c :: acc)) := scanGo_push pre' l (c :: acc) htail
            _ = scanGo l ((c :: pre').reverse ++ acc) := by
                simp [List.reverse_cons, List.append_assoc]

theorem scanGo_crlf (buf acc : List Char) :
    scanGo ('\r' :: '\n' :: buf) acc =
      (if containsSub W001 acc.reverse
       then (true, buf,
         if startsWith PINGl acc.reverse then [replacePingPong acc.reverse] else [])
       else ((scanGo buf []).1, (scanGo buf []).2.1,
         (if startsWith PINGl acc.reverse then [replacePingPong acc.reverse] else []) ++
           (scanGo buf []).2.2)) := rfl

theorem scanLines_line (line buf : List Char) (hc : List.Chain' pairOK line) :
    scanLines (line ++ '\r' :: '\n' :: buf) =
      (if containsSub W001 line
       then (true, buf, if startsWith PINGl line then [replacePingPong line] else [])
       else ((scanLines buf).1, (scanLines buf).2.1,
         (if startsWith PINGl line then [replacePingPong line] else []) ++
           (scanLines buf).2.2)) := by
  have hpush := scanGo_push line ('\r' :: '\n' :: buf) []
    (by simpa using chain_snoc_cr line hc)
  rw [scanLines, hpush, List.append_nil, scanGo_crlf]
  rw [List.reverse_reverse]
  rfl

/-- Claim C5, counterexample: during the registration wait a line that both
begins with PING and contains the token 001 is answered with a PONG and
nevertheless completes registration at once, because the 001 test in the
source is an independent if, not an elif under the PING test. -/
theorem c5_cex_ping_and_001 :
    waitWelcome [HsEvent.data "PING :x 001 y\r\n".toList] [] =
      ⟨HsResult.welcome, ["PONG :x 001 y".toList]⟩ := by decide

/-- Claim C5, amended: a PING-prefixed line is always answered with a PONG,
but the 001 check runs independently of the PING check, so registration
completes on the first line containing the 001 token even when that line
begins with PING; exhausting the wait budget without such a line fails the
attempt, as does a remote close (an empty read). -/
theorem c5_amended_wait (line buf : List Char) (evs : List HsEvent)
    (hc : List.Chain' pairOK line) (hp : startsWith PINGl line = true) :
    (containsSub W001 line = true →
        scanLines (line ++ '\r' :: '\n' :: buf) = (true, buf, [replacePingPong line]))
  ∧ (containsSub W001 line = false →
        scanLines (line ++ '\r' :: '\n' :: buf) =
          ((scanLines buf).1, (scanLines buf).2.1,
            replacePingPong line :: (scanLines buf).2.2))
  ∧ waitWelcome [] buf = ⟨HsResult.timedOut, []⟩
  ∧ waitWelcome (HsEvent.data [] :: evs) buf = ⟨HsResult.closed, []⟩ := by
  refine ⟨fun hw => ?_, fun hw => ?_, rfl, rfl⟩
  · rw [scanLines_line line buf hc]
    simp [hp, hw]
  · rw [scanLines_line line buf hc]
    simp [hp, hw]

/-- Witness for c5_amended_wait at concrete lines. -/
theorem c5_amended_wait_witness :
    scanLines ("PING :a 001 b".toList ++ '\r' :: '\n' :: []) =
      (true, [], [replacePingPong "PING :a 001 b".toList])
  ∧ scanLines ("PING :a".toList ++ '\r' :: '\n' :: []) =
      ((scanLines []).1, (scanLines []).2.1, replacePingPong "PING :a".toList :: (scanLines []).2.2) := by
  constructor
  · exact (c5_amended_wait "PING :a 001 b".toList [] []
      (crlfFree_chain _ (by decide)) (by decide)).1 (by decide)
  · exact (c5_amended_wait "PING :a".toList [] []
      (crlfFree_chain _ (by decide)) (by decide)).2.1 (by decide)

/-! Replacement lemmas for the PONG reply. -/

theorem replacePingPong_no_occ (t : List Char) (h : containsSub PINGl t = false) :
    replacePingPong t = t := by
  induction t with
  | nil => rfl
  | cons a rest ih =>
      simp only [containsSub, Bool.or_eq_false_iff] at h
      obtain ⟨hs, hrest⟩ := h
      rcases rest with _ | ⟨b, _ | ⟨c, _ | ⟨d, r⟩⟩⟩
      · rfl
      · rfl
      · rfl
      · have hcond : ¬(a = 'P' ∧ b = 'I' ∧ c = 'N' ∧ d = 'G') := by
          rintro ⟨rfl, rfl, rfl, rfl⟩
          simp [startsWith, PINGl] at hs
        rw [replacePingPong, if_neg hcond, ih hrest]

theorem replacePingPong_ping (t : List Char) :
    replacePingPong (PINGl ++ t) = PONGl ++ replacePingPong t := rfl

/-- Claim C6, counterexample: the reply to PING is built with a global
replace of PING by PONG, so the line PING PING is answered with PONG PONG,
not with PONG followed by the rest of the line after the command name
(which would be PONG PING). -/
theorem c6_cex_replace_all :
    (procLine "PING PING".toList stRun).outbox = stRun.outbox ++ ["PONG PONG".toList]
  ∧ "PONG PONG".toList ≠ "PONG PING".toList := by decide

/-- Claim C6, amended: a PING-prefixed line, in steady state or during the
registration wait, produces exactly one raw send and no other side effect,
but its content is the line with every occurrence of PING replaced by PONG;
this equals PONG followed by the rest of the line only when PING occurs
nowhere after the leading command name. -/
theorem c6_amended_pong (line t : List Char) (st : DState)
    (hp : startsWith PINGl line = true) :
    procLine line st =
      { st with
        wire := st.wire ++ [replacePingPong line ++ CRLF],
        outbox := st.outbox ++ [replacePingPong line] }
  ∧ (containsSub PINGl t = false → replacePingPong (PINGl ++ t) = PONGl ++ t)
  ∧ (List.Chain' pairOK line → containsSub W001 line = false →
        scanLines (line ++ '\r' :: '\n' :: []) = (false, [], [replacePingPong line])) := by
  refine ⟨?_, fun h => ?_, fun hc hw => ?_⟩
  · simp [procLine, parseEvent, hp, sendRaw, sendRawR]
  · rw [replacePingPong_ping, replacePingPong_no_occ t h]
  · rw [scanLines_line line [] hc]
    simp [hp, hw, scanLines, scanGo]

/-- Witness for c6_amended_pong at a concrete line. -/
theorem c6_amended_pong_witness :
    procLine "PING :abc".toList stRun =
      { stRun with
        wire := stRun.wire ++ [replacePingPong "PING :abc".toList ++ CRLF],
        outbox := stRun.outbox ++ [replacePingPong "PING :abc".toList] }
  ∧ replacePingPong (PINGl ++ " :abc".toList) = PONGl ++ " :abc".toList := by
  constructor
  · exact (c6_amended_pong "PING :abc".toList [] stRun (by decide)).1
  · exact (c6_amended_pong "PING :abc".toList " :abc".toList stRun (by decide)).2.1 (by decide)

/-- Claim C10, confirmed: draining QUIT only clears the running flag; the
remaining lines of the same batch are still parsed and executed, so a SEND
after the QUIT still produces its PRIVMSG raw send, while the flag stays
cleared for the next loop test. -/
theorem c10_batch_after_quit (st : DState) (pre mid post : List (List Char))
    (q t x : List Char) (hq : pyStrip q = QUITl) (ht : ∀ c ∈ t, c ≠ ' ')
    (hx : pyStrip (SENDsp ++ (t ++ ' ' :: x)) = SENDsp ++ (t ++ ' ' :: x)) :
    (runCmdLines (pre ++ q :: mid ++ (SENDsp ++ (t ++ ' ' :: x)) :: post) st).running = false
  ∧ (PRIVMSGsp ++ (t ++ ' ' :: ':' :: x)) ∈
      (runCmdLines (pre ++ q :: mid ++ (SENDsp ++ (t ++ ' ' :: x)) :: post) st).outbox := by
  constructor
  · exact runCmdLines_quit _ _ ⟨q, by simp, hq⟩
  · rw [runCmdLines_append, runCmdLines_cons]
    obtain ⟨a3, h3⟩ := runCmdLines_outbox post
      (procCmdLine (SENDsp ++ (t ++ ' ' :: x)) (runCmdLines (pre ++ q :: mid) st))
    rw [h3, procCmdLine, parseCmd_send t x ht hx]
    simp [execCmd, sendRaw, sendRawR]

/-- Claim C8, counterexample: the sender extraction drops the first
character of the first field unconditionally (parts[0][1:]), it does not
strip only a leading colon, so a PRIVMSG line whose prefix lacks the colon
loses the first letter of the nick. -/
theorem c8_cex_sender_first_char :
    parseEvent "nick!u@h PRIVMSG #c :hello".toList =
      Event.chatMessage "ick".toList "#c".toList "hello".toList
  ∧ Event.chatMessage "ick".toList "#c".toList "hello".toList ≠
      Event.chatMessage "nick".toList "#c".toList "hello".toList := by decide

/-- Claim C8, amended: a line containing PRIVMSG that does not begin with
PING is split into at most 4 space-delimited fields; with 4 fields it is a
ChatMessage whose sender is the first field with its first character
removed (whatever it is) and then only the part before the bang kept,
whose target is the third field, and whose text is the fourth field with
one leading colon stripped if present; with fewer than 4 fields the line is
Unrecognized and produces no inbox record; the stated concrete example
parses as claimed. -/
theorem c8_amended_privmsg (line : List Char)
    (h1 : containsSub PRIVMSGl line = true) (h2 : startsWith PINGl line = false) :
    (4 ≤ (splitAtMost 3 line).length →
        parseEvent line = Event.chatMessage
          (untilBang (((splitAtMost 3 line).getD 0 []).drop 1))
          ((splitAtMost 3 line).getD 2 [])
          (dropColon ((splitAtMost 3 line).getD 3 [])))
  ∧ ((splitAtMost 3 line).length < 4 →
        parseEvent line = Event.unrecognized line ∧ ∀ st, procLine line st = st)
  ∧ parseEvent ":nick!u@h PRIVMSG #c :hello world".toList =
      Event.chatMessage "nick".toList "#c".toList "hello world".toList := by
  refine ⟨fun h4 => ?_, fun h4 => ?_, by decide⟩
  · simp only [parseEvent, h1, h2]
    simp [h4]
  · have h4' : ¬ 4 ≤ (splitAtMost 3 line).length := by omega
    have he : parseEvent line = Event.unrecognized line := by
      simp only [parseEvent, h1, h2]
      simp [h4']
    exact ⟨he, fun st => by simp [procLine, he]⟩

/-- Witness for c8_amended_privmsg at concrete lines. -/
theorem c8_amended_privmsg_witness :
    parseEvent ":nick!u@h PRIVMSG #c :hello world".toList =
      Event.chatMessage
        (untilBang (((splitAtMost 3 ":nick!u@h PRIVMSG #c :hello world".toList).getD 0 []).drop 1))
        ((splitAtMost 3 ":nick!u@h PRIVMSG #c :hello world".toList).getD 2 [])
        (dropColon ((splitAtMost 3 ":nick!u@h PRIVMSG #c :hello world".toList).getD 3 []))
  ∧ parseEvent ":a PRIVMSG #c".toList = Event.unrecognized ":a PRIVMSG #c".toList := by
  constructor
  · exact (c8_amended_privmsg ":nick!u@h PRIVMSG #c :hello world".toList
      (by decide) (by decide)).1 (by decide)
  · exact ((c8_amended_privmsg ":a PRIVMSG #c".toList (by decide) (by decide)).2.1
      (by decide)).1

/-! Invariants of one loop iteration, for the termination claims. -/

theorem procLine_broke (l : List Char) (st : DState) :
    (procLine l st).broke = st.broke := by
  cases h : parseEvent l <;> simp [procLine, h, sendRaw, sendRawR]

theorem procLine_running (l : List Char) (st : DState) :
    (procLine l st).running = st.running := by
  cases h : parseEvent l <;> simp [procLine, h, sendRaw, sendRawR]

theorem foldl_procLine_broke (ls : List (List Char)) (st : DState) :
    (ls.foldl (fun s l => procLine l s) st).broke = st.broke := by
  induction ls generalizing st with
  | nil => rfl
  | cons l ls ih => rw [List.foldl_cons, ih, procLine_broke]

theorem foldl_procLine_running (ls : List (List Char)) (st : DState) :
    (ls.foldl (fun s l => procLine l s) st).running = st.running := by
  induction ls generalizing st with
  | nil => rfl
  | cons l ls ih => rw [List.foldl_cons, ih, procLine_running]

theorem foldl_sendRaw_broke (ps : List (List Char)) (st : DState) :
    (ps.foldl (fun s p => sendRaw p s) st).broke = st.broke := by
  induction ps generalizing st with
  | nil => rfl
  | cons p ps ih => rw [List.foldl_cons, ih]; simp [sendRaw, sendRawR]

theorem foldl_sendRaw_running (ps : List (List Char)) (st : DState) :
    (ps.foldl (fun s p => sendRaw p s) st).running = st.running := by
  induction ps generalizing st with
  | nil => rfl
  | cons p ps ih => rw [List.foldl_cons, ih]; simp [sendRaw, sendRawR]

theorem checkCommands_broke (st : DState) : (checkCommands st).broke = st.broke := by
  by_cases h : st.commands = [] <;> simp [checkCommands, h, runCmdLines_broke]

theorem checkCommands_running_false (st : DState) (h : st.running = false) :
    (checkCommands st).running = false := by
  by_cases hc : st.commands = []
  · simpa [checkCommands, hc] using h
  · simp [checkCommands, hc, runCmdLines_running_false _ _ h]

theorem sendRaw_broke (m : List Char) (s : DState) : (sendRaw m s).broke = s.broke := rfl

theorem sendRaw_running (m : List Char) (s : DState) :
    (sendRaw m s).running = s.running := rfl

theorem connectModel_broke (o : ConnOutcome) (st : DState) :
    (connectModel o st).1.broke = st.broke := by
  cases o with
  | sockFail m => rfl
  | hs evs =>
      cases hw : (waitWelcome evs []).result <;>
        simp only [connectModel, hw] <;>
        simp [foldl_sendRaw_broke, sendRaw_broke]

theorem connectModel_running (o : ConnOutcome) (st : DState) :
    (connectModel o st).1.running = st.running := by
  cases o with
  | sockFail m => rfl
  | hs evs =>
      cases hw : (waitWelcome evs []).result <;>
        simp only [connectModel, hw] <;>
        simp [foldl_sendRaw_running, sendRaw_running]

theorem connectModel_ok (o : ConnOutcome) (st : DState) :
    (connectModel o st).2 = connOk o := by
  cases o with
  | sockFail m => rfl
  | hs evs =>
      simp only [connectModel, connOk]
      cases hw : (waitWelcome evs []).result <;> simp [hw]

theorem reconnectStep_running (o : ConnOutcome) (s : DState) :
    (reconnectStep o s).running = s.running := by
  cases h : (connectModel o s).2 <;> simp [reconnectStep, h, connectModel_running]

theorem reconnectStep_broke_iff (o : ConnOutcome) (s : DState) (hb : s.broke = false) :
    ((reconnectStep o s).broke = true ↔ connOk o = false) := by
  cases h : (connectModel o s).2
  · have ho : connOk o = false := by rw [← connectModel_ok o s]; exact h
    simp [reconnectStep, h, ho]
  · have ho : connOk o = true := by rw [← connectModel_ok o s]; exact h
    simp [reconnectStep, h, connectModel_broke, hb, ho]

theorem iterStep_running_false (e : EnvIn) (st : DState)
    (h : (checkCommands { st with commands := st.commands ++ e.cmds }).running = false) :
    (iterStep e st).running = false := by
  cases hnet : e.net with
  | recv chunk =>
      by_cases hc : chunk = []
      · subst hc
        simp only [iterStep, hnet]
        rw [if_pos trivial, reconnectStep_running]
        simpa using h
      · simp only [iterStep, hnet]
        rw [if_neg hc, foldl_procLine_running]
        simpa using h
  | timeout =>
      simp only [iterStep, hnet]
      by_cases hd : e.pingDue = true
      · rw [if_pos hd, sendRaw_running]; exact h
      · rw [if_neg hd]; exact h
  | err m =>
      simp only [iterStep, hnet]
      rw [reconnectStep_running]
      simpa using h

theorem iterStep_broke_iff (e : EnvIn) (st : DState) (hb : st.broke = false) :
    ((iterStep e st).broke = true ↔
      ((e.net = NetEvent.recv [] ∨ ∃ m, e.net = NetEvent.err m) ∧ connOk e.conn = false)) := by
  have hcc : (checkCommands { st with commands := st.commands ++ e.cmds }).broke = false := by
    rw [checkCommands_broke]; exact hb
  cases hnet : e.net with
  | recv chunk =>
      by_cases hc : chunk = []
      · subst hc
        simp only [iterStep, hnet]
        rw [if_pos trivial, reconnectStep_broke_iff _ _ (by simpa using hcc)]
        simp
      · simp only [iterStep, hnet]
        rw [if_neg hc, foldl_procLine_broke]
        simp [hcc, hc]
  | timeout =>
      simp only [iterStep, hnet]
      by_cases hd : e.pingDue = true
      · rw [if_pos hd, sendRaw_broke]
        simp [hcc]
      · rw [if_neg hd]
        simp [hcc]
  | err m =>
      simp only [iterStep, hnet]
      rw [reconnectStep_broke_iff _ _ (by simpa using hcc)]
      simp

theorem runLoop_not_running (envs : List EnvIn) (st : DState) (h : st.running = false) :
    runLoop envs st = cleanup st := by
  cases envs <;> simp [runLoop, h]

/-- Claim C3, counterexample: a mid-session write failure is swallowed
inside send_raw: the state is entirely unchanged, so the loop does not
transition to Reconnecting (the status sink still holds the CONNECTED
phase and the loop keeps running). -/
theorem c3_cex_write_swallowed :
    sendRawR false "PRIVMSG #c :hi".toList stRun = stRun
  ∧ stRun.status ≠ RECONNs
  ∧ stRun.running = true := by decide

/-- Claim C3, amended: only read-side failures (an empty read or a receive
exception) route to the reconnect path, and the loop body then breaks
exactly when the single reconnect attempt fails; a write failure during a
raw send is swallowed inside send_raw with no state change at all. -/
theorem c3_amended_failures (st : DState) (e : EnvIn) (msg : List Char) (s : DState)
    (hb : st.broke = false)
    (hf : e.net = NetEvent.recv [] ∨ ∃ m, e.net = NetEvent.err m) :
    ((iterStep e st).broke = true ↔ connOk e.conn = false)
  ∧ sendRawR false msg s = s := by
  refine ⟨?_, rfl⟩
  rw [iterStep_broke_iff e st hb]
  exact and_iff_right hf

/-- Witness for c3_amended_failures at a concrete failing iteration. -/
theorem c3_amended_failures_witness :
    (iterStep envEofFail stRun).broke = true
  ∧ sendRawR false "PRIVMSG #c :hi".toList stRun = stRun := by
  have h := c3_amended_failures stRun envEofFail "PRIVMSG #c :hi".toList stRun
    (by decide) (Or.inl rfl)
  exact ⟨h.1.mpr (by decide), h.2⟩

/-- Claim C1, counterexample: a run that reaches Running once, with no
command ever drained and no interrupt, still terminates after a single
failed reconnect attempt; the loop breaks and the cleanup leaves the
terminal STOPPED status. -/
theorem c1_cex_reconnect_break :
    (daemonRun hsOK [envEofFail] stInit).finished = true
  ∧ (daemonRun hsOK [envEofFail] stInit).status = STOPPEDs
  ∧ (connectModel hsOK stInit).2 = true
  ∧ envEofFail.cmds = [] := by decide

/-- Claim C1, amended: after a mid-session read failure the loop makes
exactly one reconnect attempt; if it succeeds the loop continues with the
next iteration, and if it fails the loop breaks and terminates through the
cleanup path with status STOPPED — so the loop can also terminate without a
Quit or interrupt; a first-attempt socket failure still returns at once
with only an ERROR status (the Failed terminal). -/
theorem c1_amended_loop (st : DState) (e : EnvIn) (es : List EnvIn)
    (hr : st.running = true) (hb : st.broke = false)
    (hf : e.net = NetEvent.recv [] ∨ ∃ m, e.net = NetEvent.err m) :
    (connOk e.conn = false →
        runLoop (e :: es) st = cleanup (iterStep e st)
      ∧ (runLoop (e :: es) st).status = STOPPEDs
      ∧ (runLoop (e :: es) st).finished = true)
  ∧ (connOk e.conn = true → runLoop (e :: es) st = runLoop es (iterStep e st))
  ∧ (∀ m envs s0, daemonRun (ConnOutcome.sockFail m) envs s0 =
      { s0 with status := ERRORP ++ m ++ ['\n'] }) := by
  have hbroke := iterStep_broke_iff e st hb
  refine ⟨fun hko => ?_, fun hok => ?_, fun m envs s0 => rfl⟩
  · have hbt : (iterStep e st).broke = true := hbroke.mpr ⟨hf, hko⟩
    have hrl : runLoop (e :: es) st = cleanup (iterStep e st) := by
      simp [runLoop, hr, hbt]
    exact ⟨hrl, by rw [hrl]; rfl, by rw [hrl]; rfl⟩
  · have hbf : (iterStep e st).broke = false := by
      cases hbc : (iterStep e st).broke
      · rfl
      · exact absurd (hbroke.mp hbc).2 (by simp [hok])
    simp [runLoop, hr, hbf]

/-- Witness for c1_amended_loop at a concrete failing reconnect. -/
theorem c1_amended_loop_witness :
    (runLoop [envEofFail] stRun).status = STOPPEDs
  ∧ (runLoop [envEofFail] stRun).finished = true := by
  have h := (c1_amended_loop stRun envEofFail [] (by decide) (by decide) (Or.inl rfl)).1
    (by decide)
  exact ⟨h.2.1, h.2.2⟩

/-- Claim C2, counterexample: a QUIT drained while Running does stop the
loop with status STOPPED and the QUIT raw line is written to the transport
before it is closed, but the shutdown QUIT bypasses send_raw, so no QUIT
line is ever appended to the outbox log. -/
theorem c2_cex_quit_outbox :
    (daemonRun hsOK [envQuit] stInit).status = STOPPEDs
  ∧ (daemonRun hsOK [envQuit] stInit).finished = true
  ∧ (daemonRun hsOK [envQuit] stInit).closed = true
  ∧ (daemonRun hsOK [envQuit] stInit).wire.getLast? = some QUITRAW
  ∧ (∀ msg ∈ (daemonRun hsOK [envQuit] stInit).outbox, startsWith QUITl msg = false)
  ∧ (connectModel hsOK stInit).2 = true
  ∧ envQuit.cmds = "QUIT\n".toList := by decide

/-- Claim C2, amended: a QUIT command drained while Running makes the loop
terminate through cleanup: the status sink holds STOPPED, the QUIT raw line
is written to the transport before the transport is closed, and the outbox
log is left untouched by the shutdown (the QUIT send bypasses sendRaw, so
no QUIT line ever reaches the outbox). -/
theorem c2_amended_quit (st : DState) (e : EnvIn) (es : List EnvIn)
    (hr : st.running = true)
    (hq : ∃ l ∈ splitLines (st.commands ++ e.cmds), pyStrip l = QUITl) :
    runLoop (e :: es) st = cleanup (iterStep e st)
  ∧ (runLoop (e :: es) st).status = STOPPEDs
  ∧ (runLoop (e :: es) st).finished = true
  ∧ (runLoop (e :: es) st).wire = (iterStep e st).wire ++ [QUITRAW]
  ∧ (runLoop (e :: es) st).outbox = (iterStep e st).outbox := by
  have hne : st.commands ++ e.cmds ≠ [] := by
    intro h0
    rw [h0] at hq
    simp [splitLines] at hq
  have hcc : (checkCommands { st with commands := st.commands ++ e.cmds }).running = false := by
    simp only [checkCommands]
    rw [if_neg hne]
    exact runCmdLines_quit _ _ hq
  have hrun' : (iterStep e st).running = false := iterStep_running_false e st hcc
  have hrl : runLoop (e :: es) st = cleanup (iterStep e st) := by
    cases hbr : (iterStep e st).broke
    · have : runLoop (e :: es) st = runLoop es (iterStep e st) := by
        simp [runLoop, hr, hbr]
      rw [this, runLoop_not_running es _ hrun']
    · simp [runLoop, hr, hbr]
  exact ⟨hrl, by rw [hrl]; rfl, by rw [hrl]; rfl, by rw [hrl]; rfl, by rw [hrl]; rfl⟩

/-- Witness for c2_amended_quit at a concrete drained QUIT. -/
theorem c2_amended_quit_witness :
    (runLoop [envQuit] stRun).status = STOPPEDs
  ∧ (runLoop [envQuit] stRun).outbox = (iterStep envQuit stRun).outbox := by
  have h := c2_amended_quit stRun envQuit [] (by decide)
    ⟨"QUIT".toList, by decide, by decide⟩
  exact ⟨h.2.1, h.2.2.2.2⟩

/-- Witness for c10_batch_after_quit at a concrete batch. -/
theorem c10_batch_after_quit_witness :
    (runCmdLines ([] ++ "QUIT".toList :: [] ++
        (SENDsp ++ ("#c".toList ++ ' ' :: "hi".toList)) :: []) stRun).running = false
  ∧ (PRIVMSGsp ++ ("#c".toList ++ ' ' :: ':' :: "hi".toList)) ∈
      (runCmdLines ([] ++ "QUIT".toList :: [] ++
        (SENDsp ++ ("#c".toList ++ ' ' :: "hi".toList)) :: []) stRun).outbox :=
  c10_batch_after_quit stRun [] [] [] "QUIT".toList "#c".toList "hi".toList
    (by decide) (by decide) (by decide)

end IrcD
